import Mathlib

/-!
Verification of `veracode_target_urls.py`: a shallow embedding in Lean 4 of the
script's extraction pipeline (`VeracodeDynamicAnalysis.extract_target_urls`),
its reporter (`main`, lines 140-171), and theorems settling the specified
claims about it.

Modelling conventions:
* Decoded JSON bodies are values of the inductive `Json` below; Python `None`
  and JSON `null` coincide in this program (JSON decoding maps `null` to
  `None`), both are `Json.null`.  Numbers are modelled as integers; no claim
  involves fractional values.
* A Python runtime exception (e.g. calling `.get` on a non-dict) is modelled
  as the result `none` of an `Option`-valued function: the script has no
  handler for such exceptions, so they abort the process and no result list
  is ever returned.
* `_make_request` returning the failure sentinel `None` is modelled as the
  field `analysesResponse` (resp. the function `scansResponse`) of the
  environment producing `none`; a successful request with decoded body `j`
  is `some j`.
* To express "no scans-listing request is issued", the extraction is
  instrumented: `extractT` also returns the list of `analysis_id` values for
  which `get_analysis_scans` was called, in call order.  `extract_target_urls`
  is its first projection.
-/

/-- A decoded JSON value (the result of `response.json()` / `json.load`). -/
inductive Json where
  | null : Json
  | bool : Bool → Json
  | num : Int → Json
  | str : String → Json
  | arr : List Json → Json
  | obj : List (String × Json) → Json

mutual

/-- Structural equality of JSON values (Python `==` on decoded bodies). -/
def jeq : Json → Json → Bool
  | Json.null, Json.null => true
  | Json.bool a, Json.bool b => a == b
  | Json.num a, Json.num b => a == b
  | Json.str a, Json.str b => a == b
  | Json.arr a, Json.arr b => jeqL a b
  | Json.obj a, Json.obj b => jeqO a b
  | _, _ => false

/-- Elementwise equality of JSON arrays. -/
def jeqL : List Json → List Json → Bool
  | [], [] => true
  | x :: xs, y :: ys => jeq x y && jeqL xs ys
  | _, _ => false

/-- Entrywise equality of JSON objects. -/
def jeqO : List (String × Json) → List (String × Json) → Bool
  | [], [] => true
  | (k1, v1) :: xs, (k2, v2) :: ys => k1 == k2 && jeq v1 v2 && jeqO xs ys
  | _, _ => false

end

/-- The underlying association list of a JSON object (a Python dict). -/
abbrev JObj := List (String × Json)

/-- First-match association-list lookup: Python `d[k]` presence test /
`d.get(k)` on a dict whose keys are unique. -/
def jlookup : JObj → String → Option Json
  | [], _ => none
  | (k', v) :: rest, k => if k' = k then some v else jlookup rest k

/-- Python `d.get(k, default)`: the stored value when the key is present
(even if that value is `None`), the default otherwise. -/
def jget (o : JObj) (k : String) (d : Json) : Json :=
  (jlookup o k).getD d

/-- Python truthiness of a decoded JSON value (`if x:`). -/
def pyTruthy : Json → Bool
  | Json.null => false
  | Json.bool b => b
  | Json.num n => n != 0
  | Json.str s => s != ""
  | Json.arr xs => !xs.isEmpty
  | Json.obj kvs => !kvs.isEmpty

/-- Truthiness of an optional response body: `None` is falsy, a body is as
truthy as the body itself.  This is the test `if not analyses_response:` /
`if not scans_response:`. -/
def optTruthy : Option Json → Bool
  | none => false
  | some j => pyTruthy j

/-- One flattened result record, the dict built at lines 105-115 of
`veracode_target_urls.py`.  Fields are listed in the order the source
constructs the dict. -/
structure ResultRecord where
  analysis_id : Json
  analysis_name : Json
  application_name : Json
  scan_id : Json
  scan_config_name : Json
  target_url : Json
  latest_status : Json
  created_on : Json
  last_modified_on : Json

/-- The API as seen by the script: the decoded body of
`GET /was/configservice/v1/analyses` (`none` = request failed, the sentinel),
and, for each `analysis_id` value, the decoded body of
`GET /was/configservice/v1/analyses/.../scans`. -/
structure ApiEnv where
  analysesResponse : Option Json
  scansResponse : Json → Option Json

/-- The envelope access `resp.get('_embedded', Json.obj []).get(key, [])`
shared by lines 75 and 95.  `none` models the `AttributeError` raised when
the value stored under `_embedded` is not a dict. -/
def embeddedItems (o : JObj) (key : String) : Option Json :=
  match jget o "_embedded" (Json.obj []) with
  | Json.obj e => some (jget e key (Json.arr []))
  | _ => none

/-- The computation `analysis.get('application', Json.obj []).get('name',
'Unknown')` of line 86; `none` models the crash when `application` holds a
non-dict. -/
def analysisAppName (a : JObj) : Option Json :=
  match jget a "application" (Json.obj []) with
  | Json.obj app => some (jget app "name" (Json.str "Unknown"))
  | _ => none

/-- One iteration of the scan loop (lines 97-118) on a single scan value:
`some (some r)` appends record `r`, `some none` appends nothing (falsy
`target_url`), `none` is a crash (non-dict scan, or non-dict
`latest_occurrence_status`). -/
def processScan1 (analysis_id analysis_name app_name : Json) (scan : Json) :
    Option (Option ResultRecord) :=
  match scan with
  | Json.obj s =>
      let target_url := jget s "target_url" Json.null
      let scan_id := jget s "scan_id" Json.null
      let application_name := jget s "application_name" app_name
      let scan_config_name := jget s "scan_config_name" (Json.str "N/A")
      match jget s "latest_occurrence_status" (Json.obj []) with
      | Json.obj st =>
          let latest_status := jget st "status_type" (Json.str "Unknown")
          if pyTruthy target_url then
            some (some
              { analysis_id := analysis_id
                analysis_name := analysis_name
                application_name := application_name
                scan_id := scan_id
                scan_config_name := scan_config_name
                target_url := target_url
                latest_status := latest_status
                created_on := jget s "created_on" (Json.str "Unknown")
                last_modified_on := jget s "last_modified_on" (Json.str "Unknown") })
          else some none
      | _ => none
  | _ => none

/-- The scan loop over a fetched scans list, in listing order.  Records are
appended in loop order; a crash anywhere loses the whole run. -/
def processScans (analysis_id analysis_name app_name : Json) :
    List Json → Option (List ResultRecord)
  | [] => some []
  | s :: rest =>
      match processScan1 analysis_id analysis_name app_name s with
      | none => none
      | some r? =>
          match processScans analysis_id analysis_name app_name rest with
          | none => none
          | some rs => some (r?.toList ++ rs)

/-- One iteration of the analysis loop (lines 83-118): the records this
analysis contributes, paired with the scans-listing requests it issued
(always exactly one, keyed by its `analysis_id`, unless it crashed before
the call). -/
def processAnalysisT (env : ApiEnv) (analysis : Json) :
    Option (List ResultRecord × List Json) :=
  match analysis with
  | Json.obj a =>
      let analysis_id := jget a "analysis_id" Json.null
      let analysis_name := jget a "name" (Json.str "Unknown")
      match analysisAppName a with
      | none => none
      | some app_name =>
          match env.scansResponse analysis_id with
          | none => some ([], [analysis_id])
          | some scansBody =>
              if pyTruthy scansBody then
                match scansBody with
                | Json.obj so =>
                    match embeddedItems so "scans" with
                    | none => none
                    | some scansJ =>
                        match scansJ with
                        | Json.arr scans =>
                            match processScans analysis_id analysis_name app_name scans with
                            | none => none
                            | some rs => some (rs, [analysis_id])
                        | Json.str "" => some ([], [analysis_id])
                        | Json.obj [] => some ([], [analysis_id])
                        | _ => none
                | _ => none
              else some ([], [analysis_id])
  | _ => none

/-- The analysis loop over the fetched analyses list, accumulating records
and issued scans requests in order. -/
def processAnalysesT (env : ApiEnv) : List Json → Option (List ResultRecord × List Json)
  | [] => some ([], [])
  | a :: rest =>
      match processAnalysisT env a with
      | none => none
      | some (rs, ts) =>
          match processAnalysesT env rest with
          | none => none
          | some (rs', ts') => some (rs ++ rs', ts ++ ts')

/-- `extract_target_urls` (lines 65-120), instrumented: the returned result
list paired with the list of `analysis_id` values for which a scans-listing
request was issued.  `some` on the normal return, `none` on an uncaught
exception. -/
def extractT (env : ApiEnv) : Option (List ResultRecord × List Json) :=
  match env.analysesResponse with
  | none => some ([], [])
  | some respJ =>
      if pyTruthy respJ then
        match respJ with
        | Json.obj o =>
            match embeddedItems o "analyses" with
            | none => none
            | some analysesJ =>
                if pyTruthy analysesJ then
                  match analysesJ with
                  | Json.arr analyses => processAnalysesT env analyses
                  | _ => none
                else some ([], [])
        | _ => none
      else some ([], [])

/-- `extract_target_urls` proper: the ResultSet the extraction returns. -/
def extract_target_urls (env : ApiEnv) : Option (List ResultRecord) :=
  (extractT env).map (fun p => p.1)

/-- Membership of a key in the `apps` dict (Python `app_name not in apps`,
line 148).  Keys here are JSON values; the script only ever stores the
`application_name` of a record. -/
def hasKey : List (Json × List ResultRecord) → Json → Bool
  | [], _ => false
  | p :: rest, k => if jeq p.1 k then true else hasKey rest k

/-- One iteration of the grouping loop (lines 146-150): create the group on
first sight of an application name, then append the record to its group.
The dict is modelled as an insertion-ordered association list, matching
Python's ordered dicts. -/
def insertRec (apps : List (Json × List ResultRecord)) (r : ResultRecord) :
    List (Json × List ResultRecord) :=
  if hasKey apps r.application_name then
    apps.map (fun p =>
      if jeq p.1 r.application_name then (p.1, p.2 ++ [r]) else p)
  else apps ++ [(r.application_name, [r])]

/-- The reporter's grouping of the ResultSet by `application_name`
(lines 144-150). -/
def groupByApp (rs : List ResultRecord) : List (Json × List ResultRecord) :=
  rs.foldl insertRec []

/-- Lookup of one application's group in the grouping. -/
def findGroup : List (Json × List ResultRecord) → Json → Option (List ResultRecord)
  | [], _ => none
  | p :: rest, k => if jeq p.1 k then some p.2 else findGroup rest k

/-- Membership of a JSON value in a list of JSON values. -/
def memName : List Json → Json → Bool
  | [], _ => false
  | n :: rest, k => if jeq n k then true else memName rest k

/-- First-seen-order deduplication of a list of names; the order in which
the grouping discovers application names. -/
def firstSeen (names : List Json) : List Json :=
  names.foldl (fun acc n => if memName acc n then acc else acc ++ [n]) []

/-- The JSON object `json.dump` writes for one record: exactly the nine keys
of the dict of lines 105-115, in construction order. -/
def recordToJson (r : ResultRecord) : Json :=
  Json.obj
    [("analysis_id", r.analysis_id),
     ("analysis_name", r.analysis_name),
     ("application_name", r.application_name),
     ("scan_id", r.scan_id),
     ("scan_config_name", r.scan_config_name),
     ("target_url", r.target_url),
     ("latest_status", r.latest_status),
     ("created_on", r.created_on),
     ("last_modified_on", r.last_modified_on)]

/-- The JSON value written to `veracode_target_urls.json` (line 167): the
ResultSet in original order as a JSON array.  Textual encoding and decoding
are delegated to Python's `json` library, whose `load` inverts `dump`; the
file's parsed content is therefore this value. -/
def serializeResults (rs : List ResultRecord) : Json :=
  Json.arr (rs.map recordToJson)

/-- The key list of a serialized record object. -/
def recordKeys : Json → List String
  | Json.obj o => o.map (fun p => p.1)
  | _ => []

/-- Lookup in a serialized record object. -/
def jgetObj (j : Json) (k : String) : Option Json :=
  match j with
  | Json.obj o => jlookup o k
  | _ => none

/-- The observable effect of the reporter (lines 140-171): the content
written to the output file, if any, and whether the
`"No target URLs found."` branch ran. -/
structure ReportOutcome where
  fileWritten : Option Json
  emptyMessage : Bool

/-- The reporter's branch on `if target_urls:` (line 140): a non-empty
ResultSet is rendered and dumped to the output file; an empty one prints a
single informational message and performs no file operation. -/
def report (rs : List ResultRecord) : ReportOutcome :=
  if rs.isEmpty then
    { fileWritten := none, emptyMessage := true }
  else
    { fileWritten := some (serializeResults rs), emptyMessage := false }

/-! ## Sample inputs (the spec's scenarios), shared by the witnesses -/

/-- An analysis `A1` of application `Shop`. -/
def sampleAnalysis : Json :=
  Json.obj [("analysis_id", Json.str "A1"), ("name", Json.str "App Scan"),
            ("application", Json.obj [("name", Json.str "Shop")])]

/-- A scans page with one scan carrying a target URL and one without. -/
def sampleScansBody : Json :=
  Json.obj [("_embedded", Json.obj [("scans", Json.arr
    [Json.obj [("target_url", Json.str "https://shop.example.com"),
               ("scan_id", Json.str "S1")],
     Json.obj [("scan_id", Json.str "S2")]])])]

/-- An API in which the analyses listing returns `A1` and only `A1`'s scans
listing succeeds. -/
def sampleEnv : ApiEnv :=
  ApiEnv.mk
    (some (Json.obj [("_embedded", Json.obj [("analyses", Json.arr [sampleAnalysis])])]))
    (fun aid => if jeq aid (Json.str "A1") then some sampleScansBody else none)

/-- The single record the extraction produces on `sampleEnv`. -/
def sampleRecord : ResultRecord :=
  { analysis_id := Json.str "A1"
    analysis_name := Json.str "App Scan"
    application_name := Json.str "Shop"
    scan_id := Json.str "S1"
    scan_config_name := Json.str "N/A"
    target_url := Json.str "https://shop.example.com"
    latest_status := Json.str "Unknown"
    created_on := Json.str "Unknown"
    last_modified_on := Json.str "Unknown" }

/-! ## Theorems -/

mutual

theorem jeq_iff : ∀ a b : Json, jeq a b = true ↔ a = b
  | Json.null, b => by cases b <;> simp [jeq]
  | Json.bool a, b => by cases b <;> simp [jeq]
  | Json.num a, b => by cases b <;> simp [jeq]
  | Json.str a, b => by cases b <;> simp [jeq]
  | Json.arr a, b => by
      cases b <;> simp [jeq]
      exact jeqL_iff a _
  | Json.obj a, b => by
      cases b <;> simp [jeq]
      exact jeqO_iff a _

theorem jeqL_iff : ∀ a b : List Json, jeqL a b = true ↔ a = b
  | [], b => by cases b <;> simp [jeqL]
  | x :: xs, b => by
      cases b with
      | nil => simp [jeqL]
      | cons y ys => simp [jeqL, jeq_iff x y, jeqL_iff xs ys]

theorem jeqO_iff : ∀ a b : List (String × Json), jeqO a b = true ↔ a = b
  | [], b => by cases b <;> simp [jeqO]
  | (k1, v1) :: xs, b => by
      cases b with
      | nil => simp [jeqO]
      | cons p ys =>
          cases p with
          | mk k2 v2 =>
              simp [jeqO, jeq_iff v1 v2, jeqO_iff xs ys, and_assoc]

end

theorem sample_extract : extract_target_urls sampleEnv = some [sampleRecord] := by
  rfl

/-! ## Invariant lemmas about the extraction -/

theorem processScan1_target_truthy {aid an ap s : Json} {r : ResultRecord}
    (h : processScan1 aid an ap s = some (some r)) :
    pyTruthy r.target_url = true := by
  cases s <;> simp only [processScan1] at h <;> try exact absurd h (by simp)
  case obj o =>
    split at h
    · split at h
      · simp only [Option.some.injEq] at h
        subst h
        simp_all
      · exact absurd h (by simp)
    · exact absurd h (by simp)

theorem processScans_target_truthy {aid an ap : Json} :
    ∀ {l : List Json} {rs : List ResultRecord},
      processScans aid an ap l = some rs →
      ∀ r ∈ rs, pyTruthy r.target_url = true := by
  intro l
  induction l with
  | nil =>
      intro rs h r hr
      simp only [processScans, Option.some.injEq] at h
      subst h
      simp at hr
  | cons s rest ih =>
      intro rs h r hr
      simp only [processScans] at h
      cases hp : processScan1 aid an ap s with
      | none => rw [hp] at h; exact absurd h (by simp)
      | some r? =>
          rw [hp] at h
          cases hq : processScans aid an ap rest with
          | none => rw [hq] at h; exact absurd h (by simp)
          | some rs' =>
              rw [hq] at h
              simp only [Option.some.injEq] at h
              subst h
              rcases List.mem_append.mp hr with hr1 | hr2
              · cases r? with
                | none => simp [Option.toList] at hr1
                | some r0 =>
                    simp only [Option.toList, List.mem_singleton] at hr1
                    subst hr1
                    exact processScan1_target_truthy hp
              · exact ih hq r hr2

theorem processAnalysisT_inv {env : ApiEnv} {a : Json}
    {p : List ResultRecord × List Json}
    (h : processAnalysisT env a = some p) :
    ∃ o apn, a = Json.obj o ∧ analysisAppName o = some apn ∧
      p.2 = [jget o "analysis_id" Json.null] ∧
      (p.1 = [] ∨ ∃ scans,
        processScans (jget o "analysis_id" Json.null)
          (jget o "name" (Json.str "Unknown")) apn scans = some p.1) := by
  cases a <;> simp only [processAnalysisT] at h <;> try exact absurd h (by simp)
  case obj o =>
    cases happ : analysisAppName o with
    | none =>
        simp only [happ] at h
        exact absurd h (by simp)
    | some apn =>
        simp only [happ] at h
        refine ⟨o, apn, rfl, happ, ?_⟩
        cases hsr : env.scansResponse (jget o "analysis_id" Json.null) with
        | none =>
            simp only [hsr, Option.some.injEq] at h
            subst h
            exact ⟨rfl, Or.inl rfl⟩
        | some sb =>
            simp only [hsr] at h
            split at h
            · rename_i htb
              clear htb
              cases sb <;> try exact Option.noConfusion h
              case obj so =>
                cases hei : embeddedItems so "scans" with
                | none =>
                    simp only [hei] at h
                    exact absurd h (by simp)
                | some scansJ =>
                    simp only [hei] at h
                    split at h
                    · rename_i scans
                      cases hps : processScans (jget o "analysis_id" Json.null)
                          (jget o "name" (Json.str "Unknown")) apn scans with
                      | none =>
                          simp only [hps] at h
                          exact absurd h (by simp)
                      | some rs =>
                          simp only [hps, Option.some.injEq] at h
                          subst h
                          exact ⟨rfl, Or.inr ⟨scans, hps⟩⟩
                    · simp only [Option.some.injEq] at h
                      subst h
                      exact ⟨rfl, Or.inl rfl⟩
                    · simp only [Option.some.injEq] at h
                      subst h
                      exact ⟨rfl, Or.inl rfl⟩
                    · exact absurd h (by simp)
            · simp only [Option.some.injEq] at h
              subst h
              exact ⟨rfl, Or.inl rfl⟩

theorem processAnalysisT_target_truthy {env : ApiEnv} {a : Json}
    {p : List ResultRecord × List Json}
    (h : processAnalysisT env a = some p) :
    ∀ r ∈ p.1, pyTruthy r.target_url = true := by
  obtain ⟨o, apn, -, -, -, hrec⟩ := processAnalysisT_inv h
  rcases hrec with hnil | ⟨scans, hs⟩
  · rw [hnil]; intro r hr; simp at hr
  · exact processScans_target_truthy hs

theorem processAnalysesT_target_truthy {env : ApiEnv} :
    ∀ {l : List Json} {p : List ResultRecord × List Json},
      processAnalysesT env l = some p →
      ∀ r ∈ p.1, pyTruthy r.target_url = true := by
  intro l
  induction l with
  | nil =>
      intro p h r hr
      simp only [processAnalysesT, Option.some.injEq] at h
      subst h
      simp at hr
  | cons a rest ih =>
      intro p h r hr
      simp only [processAnalysesT] at h
      cases hp : processAnalysisT env a with
      | none => rw [hp] at h; exact absurd h (by simp)
      | some q =>
          rw [hp] at h
          cases hq : processAnalysesT env rest with
          | none => rw [hq] at h; exact absurd h (by simp)
          | some q' =>
              rw [hq] at h
              cases q with
              | mk rs ts =>
                  cases q' with
                  | mk rs' ts' =>
                      simp only [Option.some.injEq] at h
                      subst h
                      rcases List.mem_append.mp hr with hr1 | hr2
                      · exact processAnalysisT_target_truthy hp r hr1
                      · exact ih hq r hr2

theorem extractT_target_truthy {env : ApiEnv}
    {p : List ResultRecord × List Json}
    (h : extractT env = some p) :
    ∀ r ∈ p.1, pyTruthy r.target_url = true := by
  unfold extractT at h
  cases har : env.analysesResponse with
  | none =>
      simp only [har, Option.some.injEq] at h
      subst h
      intro r hr
      simp at hr
  | some respJ =>
      simp only [har] at h
      split at h
      · rename_i htr
        clear htr
        cases respJ <;> try exact Option.noConfusion h
        case obj o =>
          cases hei : embeddedItems o "analyses" with
          | none =>
              simp only [hei] at h
              exact absurd h (by simp)
          | some analysesJ =>
              simp only [hei] at h
              split at h
              · cases analysesJ <;> try exact Option.noConfusion h
                case arr analyses => exact processAnalysesT_target_truthy h
              · simp only [Option.some.injEq] at h
                subst h
                intro r hr
                simp at hr
      · simp only [Option.some.injEq] at h
        subst h
        intro r hr
        simp at hr

/-! ## The claims -/

/-- C1: a ResultRecord is appended only when the scan's `target_url` is
truthy (for a string: non-empty), so every record in any ResultSet the
extraction returns has a non-empty `target_url`: it is truthy, in
particular not `null`/absent and not the empty string. -/
theorem extract_target_urls_nonempty_target (env : ApiEnv) (rs : List ResultRecord)
    (h : extract_target_urls env = some rs) :
    ∀ r ∈ rs, pyTruthy r.target_url = true ∧ r.target_url ≠ Json.null ∧
      ∀ s, r.target_url = Json.str s → s ≠ "" := by
  intro r hr
  have hmain : pyTruthy r.target_url = true := by
    unfold extract_target_urls at h
    cases he : extractT env with
    | none => rw [he] at h; exact Option.noConfusion h
    | some p =>
        rw [he] at h
        simp only [Option.map, Option.some.injEq] at h
        subst h
        exact extractT_target_truthy he r hr
  refine ⟨hmain, ?_, ?_⟩
  · intro hnull
    rw [hnull] at hmain
    exact Bool.noConfusion hmain
  · intro s hs hempty
    rw [hs, hempty] at hmain
    exact Bool.noConfusion hmain

/-- Witness for C1: on the sample environment the extraction succeeds and
the single produced record's `target_url` is non-empty. -/
theorem extract_target_urls_nonempty_target_witness :
    pyTruthy sampleRecord.target_url = true ∧
      sampleRecord.target_url ≠ Json.null ∧
      ∀ s, sampleRecord.target_url = Json.str s → s ≠ "" :=
  extract_target_urls_nonempty_target sampleEnv [sampleRecord] sample_extract
    sampleRecord (by simp)

/-! ## Step equations for the branch points of the extraction -/

theorem extractT_eq_of_none {env : ApiEnv} (har : env.analysesResponse = none) :
    extractT env = some ([], []) := by
  unfold extractT
  rw [har]

theorem extractT_eq_of_falsy {env : ApiEnv} {j : Json}
    (har : env.analysesResponse = some j) (hf : pyTruthy j = false) :
    extractT env = some ([], []) := by
  unfold extractT
  rw [har]
  simp [hf]

theorem extractT_eq_of_zero {env : ApiEnv} {o : JObj} {aJ : Json}
    (har : env.analysesResponse = some (Json.obj o))
    (ht : pyTruthy (Json.obj o) = true)
    (hei : embeddedItems o "analyses" = some aJ)
    (hf : pyTruthy aJ = false) :
    extractT env = some ([], []) := by
  unfold extractT
  rw [har]
  simp [ht, hei, hf]

theorem extractT_eq_of_analyses {env : ApiEnv} {o : JObj} {l : List Json}
    (har : env.analysesResponse = some (Json.obj o))
    (ht : pyTruthy (Json.obj o) = true)
    (hei : embeddedItems o "analyses" = some (Json.arr l))
    (htl : pyTruthy (Json.arr l) = true) :
    extractT env = processAnalysesT env l := by
  unfold extractT
  rw [har]
  simp [ht, hei, htl]

theorem processAnalysisT_eq_of_sentinel {env : ApiEnv} {o : JObj} {apn : Json}
    (happ : analysisAppName o = some apn)
    (hsr : env.scansResponse (jget o "analysis_id" Json.null) = none) :
    processAnalysisT env (Json.obj o) = some ([], [jget o "analysis_id" Json.null]) := by
  unfold processAnalysisT
  simp [happ, hsr]

theorem processAnalysisT_eq_of_falsy {env : ApiEnv} {o : JObj} {apn j : Json}
    (happ : analysisAppName o = some apn)
    (hsr : env.scansResponse (jget o "analysis_id" Json.null) = some j)
    (hf : pyTruthy j = false) :
    processAnalysisT env (Json.obj o) = some ([], [jget o "analysis_id" Json.null]) := by
  unfold processAnalysisT
  simp [happ, hsr, hf]

theorem processAnalysisT_eq_of_scans {env : ApiEnv} {o so : JObj} {apn : Json}
    {scans : List Json}
    (happ : analysisAppName o = some apn)
    (hsr : env.scansResponse (jget o "analysis_id" Json.null) = some (Json.obj so))
    (ht : pyTruthy (Json.obj so) = true)
    (hei : embeddedItems so "scans" = some (Json.arr scans)) :
    processAnalysisT env (Json.obj o) =
      match processScans (jget o "analysis_id" Json.null)
          (jget o "name" (Json.str "Unknown")) apn scans with
      | none => none
      | some rs => some (rs, [jget o "analysis_id" Json.null]) := by
  unfold processAnalysisT
  simp [happ, hsr, ht, hei]

theorem processAnalysesT_append {env : ApiEnv} :
    ∀ {l1 l2 : List Json} {p1 p2 : List ResultRecord × List Json},
      processAnalysesT env l1 = some p1 →
      processAnalysesT env l2 = some p2 →
      processAnalysesT env (l1 ++ l2) = some (p1.1 ++ p2.1, p1.2 ++ p2.2) := by
  intro l1
  induction l1 with
  | nil =>
      intro l2 p1 p2 h1 h2
      simp only [processAnalysesT, Option.some.injEq] at h1
      subst h1
      simpa using h2
  | cons a rest ih =>
      intro l2 p1 p2 h1 h2
      simp only [processAnalysesT] at h1
      cases ha : processAnalysisT env a with
      | none => rw [ha] at h1; exact Option.noConfusion h1
      | some q =>
          rw [ha] at h1
          cases hr : processAnalysesT env rest with
          | none => rw [hr] at h1; exact Option.noConfusion h1
          | some q' =>
              rw [hr] at h1
              simp only [Option.some.injEq] at h1
              subst h1
              have hih := ih hr h2
              simp only [List.cons_append, processAnalysesT, ha, List.append_eq]
              rw [hih]
              simp [List.append_assoc]

/-- C3: if the analyses listing fails (sentinel `None`) or the decoded page
contains zero analyses, the extraction returns an empty ResultSet and issues
no scans-listing requests (empty request trace): a hard stop. -/
theorem extraction_fatal_abort :
    (∀ env : ApiEnv, env.analysesResponse = none →
      extractT env = some ([], []) ∧ extract_target_urls env = some []) ∧
    (∀ (env : ApiEnv) (o : JObj), env.analysesResponse = some (Json.obj o) →
      pyTruthy (Json.obj o) = true →
      embeddedItems o "analyses" = some (Json.arr []) →
      extractT env = some ([], []) ∧ extract_target_urls env = some []) := by
  constructor
  · intro env har
    have hT := extractT_eq_of_none har
    exact ⟨hT, by unfold extract_target_urls; rw [hT]; rfl⟩
  · intro env o har ht hei
    have hT := extractT_eq_of_zero har ht hei (by rfl)
    exact ⟨hT, by unfold extract_target_urls; rw [hT]; rfl⟩

/-- Witness for C3: a failed analyses listing and an empty analyses page,
each with a scans endpoint that would answer, still produce an empty result
and an empty request trace. -/
theorem extraction_fatal_abort_witness :
    extractT (ApiEnv.mk none (fun _ => some sampleScansBody)) = some ([], []) ∧
    extractT (ApiEnv.mk
        (some (Json.obj [("_embedded", Json.obj [("analyses", Json.arr [])])]))
        (fun _ => some sampleScansBody)) = some ([], []) :=
  ⟨(extraction_fatal_abort.1 (ApiEnv.mk none (fun _ => some sampleScansBody)) rfl).1,
   (extraction_fatal_abort.2 (ApiEnv.mk
        (some (Json.obj [("_embedded", Json.obj [("analyses", Json.arr [])])]))
        (fun _ => some sampleScansBody))
      [("_embedded", Json.obj [("analyses", Json.arr [])])] rfl rfl rfl).1⟩

/-- C10 (implicit): a successful response whose decoded body is falsy (for
example the empty object) is indistinguishable at both call sites from the
transport-failure sentinel `None`, because the callers test truthiness: for
the analyses listing both abort the extraction with an empty ResultSet, and
for a scans listing both make the loop skip that analysis with the same
outcome. -/
theorem falsy_body_equals_sentinel :
    (∀ (env : ApiEnv) (j : Json), env.analysesResponse = some j →
      pyTruthy j = false → extractT env = some ([], [])) ∧
    (∀ env : ApiEnv, env.analysesResponse = none → extractT env = some ([], [])) ∧
    (∀ (env : ApiEnv) (o : JObj) (apn j : Json), analysisAppName o = some apn →
      env.scansResponse (jget o "analysis_id" Json.null) = some j →
      pyTruthy j = false →
      processAnalysisT env (Json.obj o) = some ([], [jget o "analysis_id" Json.null])) ∧
    (∀ (env : ApiEnv) (o : JObj) (apn : Json), analysisAppName o = some apn →
      env.scansResponse (jget o "analysis_id" Json.null) = none →
      processAnalysisT env (Json.obj o) = some ([], [jget o "analysis_id" Json.null])) :=
  ⟨fun _ _ har hf => extractT_eq_of_falsy har hf,
   fun _ har => extractT_eq_of_none har,
   fun _ _ _ _ happ hsr hf => processAnalysisT_eq_of_falsy happ hsr hf,
   fun _ _ _ happ hsr => processAnalysisT_eq_of_sentinel happ hsr⟩

/-- Witness for C10: the empty-object body and the sentinel give the same
results at both call sites, on concrete inputs. -/
theorem falsy_body_equals_sentinel_witness :
    extractT (ApiEnv.mk (some (Json.obj [])) (fun _ => some sampleScansBody))
        = some ([], []) ∧
    extractT (ApiEnv.mk none (fun _ => some sampleScansBody)) = some ([], []) ∧
    processAnalysisT (ApiEnv.mk none (fun _ => some (Json.obj [])))
        sampleAnalysis = some ([], [Json.str "A1"]) ∧
    processAnalysisT (ApiEnv.mk none (fun _ => none))
        sampleAnalysis = some ([], [Json.str "A1"]) :=
  ⟨falsy_body_equals_sentinel.1
      (ApiEnv.mk (some (Json.obj [])) (fun _ => some sampleScansBody))
      (Json.obj []) rfl rfl,
   falsy_body_equals_sentinel.2.1
      (ApiEnv.mk none (fun _ => some sampleScansBody)) rfl,
   falsy_body_equals_sentinel.2.2.1
      (ApiEnv.mk none (fun _ => some (Json.obj [])))
      [("analysis_id", Json.str "A1"), ("name", Json.str "App Scan"),
       ("application", Json.obj [("name", Json.str "Shop")])]
      (Json.str "Shop") (Json.obj []) rfl rfl rfl,
   falsy_body_equals_sentinel.2.2.2
      (ApiEnv.mk none (fun _ => none))
      [("analysis_id", Json.str "A1"), ("name", Json.str "App Scan"),
       ("application", Json.obj [("name", Json.str "Shop")])]
      (Json.str "Shop") rfl rfl⟩

/-- C4: when the scans listing of one analysis fails (sentinel), only that
analysis is skipped: the loop still processes the surrounding analyses, the
records they produce are all in the returned ResultSet, and the extraction
does not abort (it still returns `some`).  The skipped analysis still
accounts for one issued request in the trace. -/
theorem scans_failure_skips_only_that_analysis
    (env : ApiEnv) (pre post : List Json) (o : JObj) (apn : Json)
    (r1 r2 : List ResultRecord) (t1 t2 : List Json)
    (happ : analysisAppName o = some apn)
    (hsr : env.scansResponse (jget o "analysis_id" Json.null) = none)
    (h1 : processAnalysesT env pre = some (r1, t1))
    (h2 : processAnalysesT env post = some (r2, t2)) :
    processAnalysesT env (pre ++ Json.obj o :: post)
      = some (r1 ++ r2, t1 ++ jget o "analysis_id" Json.null :: t2) := by
  have hmid : processAnalysesT env [Json.obj o]
      = some ([], [jget o "analysis_id" Json.null]) := by
    simp [processAnalysesT, processAnalysisT_eq_of_sentinel happ hsr]
  have hmp := processAnalysesT_append hmid h2
  have hall := processAnalysesT_append h1 hmp
  simpa using hall

/-- Witness for C4: the spec's scenario, where analysis `A1` succeeds with
one valid scan and the scans listing for `A2` fails: exactly the `A1`
record survives and both requests were issued. -/
theorem scans_failure_skips_only_that_analysis_witness :
    processAnalysesT sampleEnv
        [sampleAnalysis,
         Json.obj [("analysis_id", Json.str "A2"), ("name", Json.str "Other Scan"),
                   ("application", Json.obj [("name", Json.str "Shop")])]]
      = some ([sampleRecord], [Json.str "A1", Json.str "A2"]) :=
  scans_failure_skips_only_that_analysis sampleEnv [sampleAnalysis] []
    [("analysis_id", Json.str "A2"), ("name", Json.str "Other Scan"),
     ("application", Json.obj [("name", Json.str "Shop")])]
    (Json.str "Shop") [sampleRecord] [] [Json.str "A1"] [] rfl rfl rfl rfl

/-- C5: a scan without `application_name` inherits the owning analysis's
application name (the `app_name` argument of the scan loop), and that name
is the literal `"Unknown"` when the analysis record has no `application`
entry, or an `application` object without `name`. -/
theorem application_name_fallback :
    (∀ (aid an ap : Json) (s : JObj) (r : ResultRecord),
      jlookup s "application_name" = none →
      processScan1 aid an ap (Json.obj s) = some (some r) →
      r.application_name = ap) ∧
    (∀ a : JObj, jlookup a "application" = none →
      analysisAppName a = some (Json.str "Unknown")) ∧
    (∀ a app : JObj, jlookup a "application" = some (Json.obj app) →
      jlookup app "name" = none →
      analysisAppName a = some (Json.str "Unknown")) := by
  refine ⟨?_, ?_, ?_⟩
  · intro aid an ap s r hl hps
    simp only [processScan1] at hps
    split at hps
    · split at hps
      · simp only [Option.some.injEq] at hps
        subst hps
        simp [jget, hl]
      · exact Option.noConfusion (Option.some.inj hps)
    · exact Option.noConfusion hps
  · intro a h
    simp [analysisAppName, jget, jlookup, h]
  · intro a app h1 h2
    simp [analysisAppName, jget, h1, h2]

/-- Witness for C5: a scan with only a target URL inherits `"Shop"` from its
analysis, and both shapes of missing analysis application data give
`"Unknown"`. -/
theorem application_name_fallback_witness :
    ResultRecord.application_name
        (ResultRecord.mk (Json.str "A") (Json.str "N") (Json.str "Shop")
          Json.null (Json.str "N/A") (Json.str "x") (Json.str "Unknown")
          (Json.str "Unknown") (Json.str "Unknown")) = Json.str "Shop" ∧
    analysisAppName [("analysis_id", Json.str "A9")] = some (Json.str "Unknown") ∧
    analysisAppName [("application", Json.obj [])] = some (Json.str "Unknown") :=
  ⟨application_name_fallback.1 (Json.str "A") (Json.str "N") (Json.str "Shop")
      [("target_url", Json.str "x")]
      (ResultRecord.mk (Json.str "A") (Json.str "N") (Json.str "Shop")
        Json.null (Json.str "N/A") (Json.str "x") (Json.str "Unknown")
        (Json.str "Unknown") (Json.str "Unknown")) rfl rfl,
   application_name_fallback.2.1 [("analysis_id", Json.str "A9")] rfl,
   application_name_fallback.2.2 [("application", Json.obj [])] [] rfl rfl⟩

/-- C6: for a decoded listing response, a missing `_embedded` key, or a
missing `analyses`/`scans` key inside `_embedded`, yields the empty item
list rather than an error, and the extraction proceeds exactly as for an
empty list: the analyses listing aborts with an empty result, a scans
listing contributes no records while the loop continues. -/
theorem missing_embedded_is_empty_list :
    (∀ (o : JObj) (key : String), jlookup o "_embedded" = none →
      embeddedItems o key = some (Json.arr [])) ∧
    (∀ (o e : JObj) (key : String), jlookup o "_embedded" = some (Json.obj e) →
      jlookup e key = none → embeddedItems o key = some (Json.arr [])) ∧
    (∀ (env : ApiEnv) (o : JObj), env.analysesResponse = some (Json.obj o) →
      pyTruthy (Json.obj o) = true →
      embeddedItems o "analyses" = some (Json.arr []) →
      extractT env = some ([], [])) ∧
    (∀ (env : ApiEnv) (o so : JObj) (apn : Json), analysisAppName o = some apn →
      env.scansResponse (jget o "analysis_id" Json.null) = some (Json.obj so) →
      pyTruthy (Json.obj so) = true →
      embeddedItems so "scans" = some (Json.arr []) →
      processAnalysisT env (Json.obj o)
        = some ([], [jget o "analysis_id" Json.null])) := by
  refine ⟨?_, ?_, ?_, ?_⟩
  · intro o key h
    simp [embeddedItems, jget, jlookup, h]
  · intro o e key h1 h2
    simp [embeddedItems, jget, h1, h2]
  · intro env o har ht hei
    exact extractT_eq_of_zero har ht hei (by rfl)
  · intro env o so apn happ hsr ht hei
    exact (processAnalysisT_eq_of_scans happ hsr ht hei).trans rfl

/-- Witness for C6: concrete responses lacking `_embedded` or the expected
inner key behave as empty listings at both call sites. -/
theorem missing_embedded_is_empty_list_witness :
    embeddedItems [("x", Json.null)] "scans" = some (Json.arr []) ∧
    embeddedItems [("_embedded", Json.obj [("foo", Json.arr [Json.null])])]
        "analyses" = some (Json.arr []) ∧
    extractT (ApiEnv.mk (some (Json.obj [("x", Json.null)]))
        (fun _ => some sampleScansBody)) = some ([], []) ∧
    processAnalysisT
        (ApiEnv.mk none (fun _ => some (Json.obj [("_embedded", Json.obj [])])))
        sampleAnalysis = some ([], [Json.str "A1"]) :=
  ⟨missing_embedded_is_empty_list.1 [("x", Json.null)] "scans" rfl,
   missing_embedded_is_empty_list.2.1
      [("_embedded", Json.obj [("foo", Json.arr [Json.null])])]
      [("foo", Json.arr [Json.null])] "analyses" rfl rfl,
   missing_embedded_is_empty_list.2.2.1
      (ApiEnv.mk (some (Json.obj [("x", Json.null)])) (fun _ => some sampleScansBody))
      [("x", Json.null)] rfl rfl rfl,
   missing_embedded_is_empty_list.2.2.2
      (ApiEnv.mk none (fun _ => some (Json.obj [("_embedded", Json.obj [])])))
      [("analysis_id", Json.str "A1"), ("name", Json.str "App Scan"),
       ("application", Json.obj [("name", Json.str "Shop")])]
      [("_embedded", Json.obj [])] (Json.str "Shop") rfl rfl rfl rfl⟩

theorem processScan1_falsy_none {aid an ap : Json} {o : JObj} {x : Option ResultRecord}
    (hf : pyTruthy (jget o "target_url" Json.null) = false)
    (h : processScan1 aid an ap (Json.obj o) = some x) : x = none := by
  simp only [processScan1] at h
  split at h
  · split at h
    · rename_i hcond
      rw [hf] at hcond
      exact Bool.noConfusion hcond
    · exact (Option.some.inj h).symm
  · exact Option.noConfusion h

theorem processScan1_truthy_some {aid an ap : Json} {o : JObj} {x : Option ResultRecord}
    (ht : pyTruthy (jget o "target_url" Json.null) = true)
    (h : processScan1 aid an ap (Json.obj o) = some x) : ∃ r, x = some r := by
  simp only [processScan1] at h
  split at h
  · split at h
    · exact ⟨_, (Option.some.inj h).symm⟩
    · rename_i hcond
      exact absurd ht hcond
  · exact Option.noConfusion h

theorem processScans_each {aid an ap : Json} :
    ∀ {l : List Json} {rs : List ResultRecord},
      processScans aid an ap l = some rs →
      ∀ s ∈ l, ∃ x, processScan1 aid an ap s = some x := by
  intro l
  induction l with
  | nil => intro rs _ s hs; simp at hs
  | cons a rest ih =>
      intro rs h s hs
      simp only [processScans] at h
      cases hp : processScan1 aid an ap a with
      | none => rw [hp] at h; exact Option.noConfusion h
      | some r? =>
          rw [hp] at h
          cases hq : processScans aid an ap rest with
          | none => rw [hq] at h; exact Option.noConfusion h
          | some rs' =>
              rcases List.mem_cons.mp hs with hs1 | hs2
              · subst hs1; exact ⟨r?, hp⟩
              · exact ih hq s hs2

theorem processScans_eq_filterMap {aid an ap : Json} :
    ∀ {l : List Json} {rs : List ResultRecord},
      processScans aid an ap l = some rs →
      rs = l.filterMap (fun s => (processScan1 aid an ap s).getD none) := by
  intro l
  induction l with
  | nil =>
      intro rs h
      simp only [processScans, Option.some.injEq] at h
      subst h
      rfl
  | cons a rest ih =>
      intro rs h
      simp only [processScans] at h
      cases hp : processScan1 aid an ap a with
      | none => rw [hp] at h; exact Option.noConfusion h
      | some r? =>
          rw [hp] at h
          cases hq : processScans aid an ap rest with
          | none => rw [hq] at h; exact Option.noConfusion h
          | some rs' =>
              rw [hq] at h
              simp only [Option.some.injEq] at h
              subst h
              cases r? with
              | none =>
                  simp only [List.filterMap_cons, hp, Option.getD_some, Option.toList,
                    List.nil_append]
                  exact ih hq
              | some r0 =>
                  simp only [List.filterMap_cons, hp, Option.getD_some, Option.toList,
                    List.singleton_append, List.cons.injEq]
                  exact ⟨trivial, ih hq⟩

/-- C2: for every scan in a successfully fetched (and fully processed)
scans list, a scan whose `target_url` is absent or the empty string yields
no ResultRecord, and a scan with a non-empty string `target_url` yields
exactly one; the produced list is exactly the in-order `filterMap` of the
per-scan outcomes. -/
theorem processScans_record_per_scan (aid an ap : Json) (l : List Json)
    (rs : List ResultRecord) (h : processScans aid an ap l = some rs) :
    rs = l.filterMap (fun s => (processScan1 aid an ap s).getD none) ∧
    ∀ s ∈ l, ∀ o : JObj, s = Json.obj o →
      (jlookup o "target_url" = none → processScan1 aid an ap s = some none) ∧
      (jget o "target_url" Json.null = Json.str "" →
        processScan1 aid an ap s = some none) ∧
      (∀ u, jget o "target_url" Json.null = Json.str u → u ≠ "" →
        ∃ r, processScan1 aid an ap s = some (some r)) := by
  refine ⟨processScans_eq_filterMap h, ?_⟩
  intro s hs o hso
  subst hso
  obtain ⟨x, hx⟩ := processScans_each h _ hs
  refine ⟨?_, ?_, ?_⟩
  · intro habs
    have hf : pyTruthy (jget o "target_url" Json.null) = false := by
      simp [jget, habs, pyTruthy]
    rw [hx, processScan1_falsy_none hf hx]
  · intro hempty
    have hf : pyTruthy (jget o "target_url" Json.null) = false := by
      rw [hempty]; rfl
    rw [hx, processScan1_falsy_none hf hx]
  · intro u hu hne
    have ht : pyTruthy (jget o "target_url" Json.null) = true := by
      rw [hu]; simp [pyTruthy, hne]
    obtain ⟨r, hr⟩ := processScan1_truthy_some ht hx
    exact ⟨r, by rw [hx, hr]⟩

/-- Witness for C2: the sample scans page, where the scan with a target URL
yields one record and the scan without one yields none. -/
theorem processScans_record_per_scan_witness :
    [sampleRecord] =
      List.filterMap
        (fun s => (processScan1 (Json.str "A1") (Json.str "App Scan")
            (Json.str "Shop") s).getD none)
        [Json.obj [("target_url", Json.str "https://shop.example.com"),
                   ("scan_id", Json.str "S1")],
         Json.obj [("scan_id", Json.str "S2")]] ∧
    processScan1 (Json.str "A1") (Json.str "App Scan") (Json.str "Shop")
        (Json.obj [("scan_id", Json.str "S2")]) = some none :=
  ⟨(processScans_record_per_scan (Json.str "A1") (Json.str "App Scan")
      (Json.str "Shop")
      [Json.obj [("target_url", Json.str "https://shop.example.com"),
                 ("scan_id", Json.str "S1")],
       Json.obj [("scan_id", Json.str "S2")]]
      [sampleRecord] rfl).1,
   (((processScans_record_per_scan (Json.str "A1") (Json.str "App Scan")
      (Json.str "Shop")
      [Json.obj [("target_url", Json.str "https://shop.example.com"),
                 ("scan_id", Json.str "S1")],
       Json.obj [("scan_id", Json.str "S2")]]
      [sampleRecord] rfl).2
      (Json.obj [("scan_id", Json.str "S2")]) (by simp)
      [("scan_id", Json.str "S2")] rfl).1 rfl)⟩

/-- C8: the JSON value written for a non-empty ResultSet (textual encoding
and decoding delegated to Python's `json`, whose `load` inverts `dump`) is
the array of the records in original order, each serialized as an object
with exactly the nine ResultRecord keys in construction order, whose values
are the record's field values. -/
theorem serialize_round_trip (rs : List ResultRecord) (h : rs ≠ []) :
    serializeResults rs = Json.arr (rs.map recordToJson) ∧
    ∀ r ∈ rs,
      recordKeys (recordToJson r) =
        ["analysis_id", "analysis_name", "application_name", "scan_id",
         "scan_config_name", "target_url", "latest_status", "created_on",
         "last_modified_on"] ∧
      jgetObj (recordToJson r) "analysis_id" = some r.analysis_id ∧
      jgetObj (recordToJson r) "analysis_name" = some r.analysis_name ∧
      jgetObj (recordToJson r) "application_name" = some r.application_name ∧
      jgetObj (recordToJson r) "scan_id" = some r.scan_id ∧
      jgetObj (recordToJson r) "scan_config_name" = some r.scan_config_name ∧
      jgetObj (recordToJson r) "target_url" = some r.target_url ∧
      jgetObj (recordToJson r) "latest_status" = some r.latest_status ∧
      jgetObj (recordToJson r) "created_on" = some r.created_on ∧
      jgetObj (recordToJson r) "last_modified_on" = some r.last_modified_on := by
  refine ⟨rfl, ?_⟩
  intro r _
  exact ⟨rfl, rfl, rfl, rfl, rfl, rfl, rfl, rfl, rfl, rfl⟩

/-- Witness for C8: the serialization of the one-record sample ResultSet. -/
theorem serialize_round_trip_witness :
    serializeResults [sampleRecord] = Json.arr [recordToJson sampleRecord] ∧
    (recordKeys (recordToJson sampleRecord) =
        ["analysis_id", "analysis_name", "application_name", "scan_id",
         "scan_config_name", "target_url", "latest_status", "created_on",
         "last_modified_on"] ∧
      jgetObj (recordToJson sampleRecord) "analysis_id" = some sampleRecord.analysis_id ∧
      jgetObj (recordToJson sampleRecord) "analysis_name" = some sampleRecord.analysis_name ∧
      jgetObj (recordToJson sampleRecord) "application_name" = some sampleRecord.application_name ∧
      jgetObj (recordToJson sampleRecord) "scan_id" = some sampleRecord.scan_id ∧
      jgetObj (recordToJson sampleRecord) "scan_config_name" = some sampleRecord.scan_config_name ∧
      jgetObj (recordToJson sampleRecord) "target_url" = some sampleRecord.target_url ∧
      jgetObj (recordToJson sampleRecord) "latest_status" = some sampleRecord.latest_status ∧
      jgetObj (recordToJson sampleRecord) "created_on" = some sampleRecord.created_on ∧
      jgetObj (recordToJson sampleRecord) "last_modified_on" = some sampleRecord.last_modified_on) :=
  ⟨(serialize_round_trip [sampleRecord] (by simp)).1,
   (serialize_round_trip [sampleRecord] (by simp)).2 sampleRecord (by simp)⟩

/-- C9: on an empty ResultSet the reporter takes the informational branch
and performs no file write (so an existing output file is untouched); the
output file is written exactly when the ResultSet is non-empty. -/
theorem empty_resultset_no_write (rs : List ResultRecord) :
    (rs = [] → report rs = ReportOutcome.mk none true) ∧
    (rs ≠ [] → report rs = ReportOutcome.mk (some (serializeResults rs)) false) := by
  constructor
  · intro h
    subst h
    rfl
  · intro h
    cases rs with
    | nil => exact absurd rfl h
    | cons a l => rfl

/-- Witness for C9: the empty ResultSet writes nothing and prints the
message; the one-record ResultSet writes the serialized array. -/
theorem empty_resultset_no_write_witness :
    report [] = ReportOutcome.mk none true ∧
    report [sampleRecord]
      = ReportOutcome.mk (some (serializeResults [sampleRecord])) false :=
  ⟨(empty_resultset_no_write []).1 rfl,
   (empty_resultset_no_write [sampleRecord]).2 (by simp)⟩

/-! ## Grouping lemmas -/

theorem jeq_refl (a : Json) : jeq a a = true := (jeq_iff a a).mpr rfl

theorem jeq_eq {a b : Json} (h : jeq a b = true) : a = b := (jeq_iff a b).mp h

theorem jeq_comm (a b : Json) : jeq a b = jeq b a := by
  cases h2 : jeq a b with
  | false =>
      cases h : jeq b a with
      | false => rfl
      | true =>
          have hba := jeq_eq h
          subst hba
          rw [jeq_refl] at h2
          exact Bool.noConfusion h2
  | true =>
      have hab := jeq_eq h2
      subst hab
      rw [jeq_refl]

theorem hasKey_eq_memName (apps : List (Json × List ResultRecord)) (k : Json) :
    hasKey apps k = memName (apps.map Prod.fst) k := by
  induction apps with
  | nil => rfl
  | cons p rest ih =>
      cases hj : jeq p.1 k <;> simp [hasKey, memName, hj, ih]

theorem map_fst_update (apps : List (Json × List ResultRecord)) (x : Json)
    (r : ResultRecord) :
    (apps.map (fun p => if jeq p.1 x then (p.1, p.2 ++ [r]) else p)).map Prod.fst
      = apps.map Prod.fst := by
  induction apps with
  | nil => rfl
  | cons p rest ih =>
      cases hj : jeq p.1 x <;> simp [hj, ih]

theorem insertRec_map_fst (apps : List (Json × List ResultRecord)) (r : ResultRecord) :
    (insertRec apps r).map Prod.fst =
      if memName (apps.map Prod.fst) r.application_name then apps.map Prod.fst
      else apps.map Prod.fst ++ [r.application_name] := by
  unfold insertRec
  rw [hasKey_eq_memName]
  cases hk : memName (apps.map Prod.fst) r.application_name with
  | false => simp [hk]
  | true =>
      simp [hk]
      intro a b _
      cases hj : jeq a r.application_name <;> simp [hj]

theorem foldl_insertRec_map_fst :
    ∀ (rs : List ResultRecord) (acc : List (Json × List ResultRecord)),
      (rs.foldl insertRec acc).map Prod.fst
        = rs.foldl (fun ks r => if memName ks r.application_name then ks
            else ks ++ [r.application_name]) (acc.map Prod.fst) := by
  intro rs
  induction rs with
  | nil => intro acc; rfl
  | cons r rest ih =>
      intro acc
      simp only [List.foldl_cons]
      rw [ih (insertRec acc r), insertRec_map_fst]

theorem groupByApp_map_fst (rs : List ResultRecord) :
    (groupByApp rs).map Prod.fst = firstSeen (rs.map (fun r => r.application_name)) := by
  unfold groupByApp firstSeen
  rw [foldl_insertRec_map_fst rs [], List.foldl_map]
  rfl

theorem findGroup_update (apps : List (Json × List ResultRecord)) (x k : Json)
    (r : ResultRecord) :
    findGroup (apps.map (fun p => if jeq p.1 x then (p.1, p.2 ++ [r]) else p)) k
      = if jeq k x then
          (match findGroup apps k with
           | some l => some (l ++ [r])
           | none => none)
        else findGroup apps k := by
  induction apps with
  | nil => cases hkx : jeq k x <;> simp [findGroup, hkx]
  | cons p rest ih =>
      cases hpx : jeq p.1 x with
      | false =>
          cases hpk : jeq p.1 k with
          | false => simp [findGroup, hpx, hpk, ih]
          | true =>
              have hkx : jeq k x = false := by
                cases hkx : jeq k x with
                | false => rfl
                | true =>
                    have h1 := jeq_eq hpk
                    have h2 := jeq_eq hkx
                    rw [h1, h2] at hpx
                    rw [jeq_refl] at hpx
                    exact Bool.noConfusion hpx
              simp [findGroup, hpx, hpk, hkx]
      | true =>
          cases hpk : jeq p.1 k with
          | false =>
              have hkx : jeq k x = false := by
                cases hkx : jeq k x with
                | false => rfl
                | true =>
                    have h1 := jeq_eq hpx
                    have h2 := jeq_eq hkx
                    rw [← h2] at h1
                    rw [(jeq_iff p.1 k).mpr h1] at hpk
                    exact Bool.noConfusion hpk
              simp [findGroup, hpx, hpk, hkx, ih]
          | true =>
              have hkx : jeq k x = true := by
                have h1 := jeq_eq hpx
                have h2 := jeq_eq hpk
                exact (jeq_iff k x).mpr (h2.symm.trans h1)
              simp [findGroup, hpx, hpk, hkx]

theorem findGroup_append_single (apps : List (Json × List ResultRecord))
    (x : Json) (r : ResultRecord) (k : Json) :
    findGroup (apps ++ [(x, [r])]) k
      = match findGroup apps k with
        | some l => some l
        | none => if jeq x k then some [r] else none := by
  induction apps with
  | nil => simp [findGroup]
  | cons p rest ih =>
      cases hpk : jeq p.1 k <;> simp [findGroup, hpk, ih]

theorem findGroup_eq_none_of_hasKey {apps : List (Json × List ResultRecord)}
    {k : Json} (h : hasKey apps k = false) : findGroup apps k = none := by
  induction apps with
  | nil => rfl
  | cons p rest ih =>
      simp only [hasKey] at h
      cases hpk : jeq p.1 k with
      | false =>
          rw [hpk] at h
          simp at h
          simp [findGroup, hpk]
          exact ih h
      | true =>
          rw [hpk] at h
          simp at h

theorem findGroup_isSome_of_hasKey {apps : List (Json × List ResultRecord)}
    {k : Json} (h : hasKey apps k = true) : ∃ l, findGroup apps k = some l := by
  induction apps with
  | nil => exact Bool.noConfusion h
  | cons p rest ih =>
      simp only [hasKey] at h
      cases hpk : jeq p.1 k with
      | false =>
          rw [hpk] at h
          simp at h
          obtain ⟨l, hl⟩ := ih h
          exact ⟨l, by simp [findGroup, hpk, hl]⟩
      | true =>
          exact ⟨p.2, by simp [findGroup, hpk]⟩

theorem findGroup_insertRec (apps : List (Json × List ResultRecord))
    (r : ResultRecord) (k : Json) :
    findGroup (insertRec apps r) k
      = if jeq k r.application_name then
          some ((match findGroup apps k with | some l => l | none => []) ++ [r])
        else findGroup apps k := by
  unfold insertRec
  cases hk : hasKey apps r.application_name with
  | true =>
      rw [if_pos rfl, findGroup_update]
      cases hkx : jeq k r.application_name with
      | false => simp [hkx]
      | true =>
          simp only [hkx, if_true]
          have hkan : k = r.application_name := jeq_eq hkx
          obtain ⟨l, hl⟩ := findGroup_isSome_of_hasKey (show hasKey apps k = true by
            rw [hkan]; exact hk)
          rw [hl]
  | false =>
      rw [if_neg (by simp), findGroup_append_single]
      have hnone : findGroup apps r.application_name = none :=
        findGroup_eq_none_of_hasKey hk
      cases hkx : jeq k r.application_name with
      | true =>
          have hkan := jeq_eq hkx
          subst hkan
          rw [hnone]
          simp [jeq_refl, hkx]
      | false =>
          cases hfk : findGroup apps k with
          | some l => simp [hfk, hkx]
          | none =>
              have hxk : jeq r.application_name k = false := by
                rw [jeq_comm]; exact hkx
              simp [hfk, hkx, hxk]

theorem foldl_insertRec_findGroup :
    ∀ (rs : List ResultRecord) (acc : List (Json × List ResultRecord)) (k : Json),
      findGroup (rs.foldl insertRec acc) k
        = match findGroup acc k with
          | some l => some (l ++ rs.filter (fun r => jeq r.application_name k))
          | none =>
              if memName (rs.map (fun r => r.application_name)) k
              then some (rs.filter (fun r => jeq r.application_name k))
              else none := by
  intro rs
  induction rs with
  | nil =>
      intro acc k
      cases hf : findGroup acc k <;> simp [hf, memName]
  | cons r rest ih =>
      intro acc k
      simp only [List.foldl_cons]
      rw [ih (insertRec acc r) k, findGroup_insertRec]
      cases hkx : jeq k r.application_name with
      | true =>
          have hxk : jeq r.application_name k = true := by
            rw [jeq_comm]; exact hkx
          cases hf : findGroup acc k with
          | some l => simp [hkx, hf, hxk, List.filter_cons, memName, List.append_assoc]
          | none => simp [hkx, hf, hxk, List.filter_cons, memName]
      | false =>
          have hxk : jeq r.application_name k = false := by
            rw [jeq_comm]; exact hkx
          cases hf : findGroup acc k with
          | some l => simp [hkx, hf, hxk, List.filter_cons, memName]
          | none => simp [hkx, hf, hxk, List.filter_cons, memName]

/-- C7: the reporter's grouping partitions the ResultSet by
`application_name`: the group keys appear in first-seen order, the group of
each key is exactly the in-order sublist of records carrying that
application name (and no group exists for a name that never occurs), and
grouping is deterministic, so grouping the same ResultSet twice yields
identical group contents and order. -/
theorem groupByApp_partitions (rs : List ResultRecord) :
    (groupByApp rs).map Prod.fst = firstSeen (rs.map (fun r => r.application_name)) ∧
    (∀ k : Json, findGroup (groupByApp rs) k =
        if memName (rs.map (fun r => r.application_name)) k
        then some (rs.filter (fun r => jeq r.application_name k))
        else none) ∧
    groupByApp rs = groupByApp rs := by
  refine ⟨groupByApp_map_fst rs, ?_, rfl⟩
  intro k
  unfold groupByApp
  rw [foldl_insertRec_findGroup rs [] k]
  rfl
